import Mathlib

/-!
Shallow embedding of the oemof-network core (entity/node/edge data model,
adjacency views, and the lazy grouping container) together with proofs of
its specified properties.

Python dicts are modelled as insertion-ordered association lists, Python
sets as duplicate-free lists, and object identity as numeric ids
(`NodeId`, `EdgeId`).  Fallible operations (raising `KeyError` or
`ValueError`) return `Option`/`Except`.
-/

namespace Oemof

abbrev NodeId := Nat
abbrev EdgeId := Nat

/-- Opaque payload attached to an `Edge` (`values`/`flow`). -/
abbrev Val := Nat

/-! ### Association lists modelling Python `dict`

`alSet` follows `dict.__setitem__`: an existing key keeps its position and
gets the new value, a new key is appended.  `alDel` removes the key,
`alLookup` is `dict.get`, `alHasKey` is `key in d`. -/

variable {α β : Type} [DecidableEq α]

def alLookup (l : List (α × β)) (k : α) : Option β :=
  match l with
  | [] => none
  | (k', v) :: t => if k' = k then some v else alLookup t k

def alHasKey (l : List (α × β)) (k : α) : Bool :=
  l.any (fun p => p.1 = k)

def alSet (l : List (α × β)) (k : α) (v : β) : List (α × β) :=
  if alHasKey l k then
    l.map (fun p => if p.1 = k then (k, v) else p)
  else
    l ++ [(k, v)]

def alDel (l : List (α × β)) (k : α) : List (α × β) :=
  l.filter (fun p => p.1 ≠ k)

/-- Python `set.add`: append the element if it is not already present. -/
def setAdd (l : List NodeId) (x : NodeId) : List NodeId :=
  if x ∈ l then l else l ++ [x]

/-- Python `set.remove` (the element is assumed present by the caller;
the `KeyError` case is handled at the call site). -/
def setRemove (l : List NodeId) (x : NodeId) : List NodeId :=
  l.filter (fun y => y ≠ x)

theorem alLookup_eq_none_of_not_hasKey (l : List (α × β))
    (k : α) (h : alHasKey l k = false) : alLookup l k = none := by
  induction l with
  | nil => rfl
  | cons p t ih =>
    simp only [alHasKey, List.any_cons, Bool.or_eq_false_iff,
      decide_eq_false_iff_not] at h
    simp only [alLookup, if_neg h.1]
    exact ih (by simp only [alHasKey]; exact h.2)

theorem alLookup_append_right (l₁ l₂ : List (α × β)) (k : α)
    (h : alLookup l₁ k = none) :
    alLookup (l₁ ++ l₂) k = alLookup l₂ k := by
  induction l₁ with
  | nil => rfl
  | cons p t ih =>
    by_cases hk : p.1 = k
    · simp only [alLookup, hk, if_pos rfl] at h
      cases h
    · simp only [List.cons_append, alLookup, if_neg hk] at h ⊢
      exact ih h

theorem alLookup_replace_self (l : List (α × β)) (k : α)
    (v : β) (h : alHasKey l k = true) :
    alLookup (l.map (fun p => if p.1 = k then (k, v) else p)) k = some v := by
  induction l with
  | nil => simp [alHasKey] at h
  | cons p t ih =>
    simp only [alHasKey, List.any_cons, Bool.or_eq_true,
      decide_eq_true_eq] at h
    by_cases hk : p.1 = k
    · have hrw : (if p.1 = k then (k, v) else p) = (k, v) := if_pos hk
      rw [List.map_cons, hrw]
      simp [alLookup]
    · have hrw : (if p.1 = k then (k, v) else p) = p := if_neg hk
      rw [List.map_cons, hrw]
      simp only [alLookup, if_neg hk]
      rcases h with h | h
      · exact absurd h hk
      · exact ih (by simp [alHasKey, h])

theorem alLookup_alSet_self (l : List (α × β)) (k : α)
    (v : β) : alLookup (alSet l k v) k = some v := by
  by_cases h : alHasKey l k
  · simp only [alSet, if_pos h]
    exact alLookup_replace_self l k v h
  · simp only [alSet, if_neg h]
    rw [alLookup_append_right _ _ _
      (alLookup_eq_none_of_not_hasKey l k (by simpa using h))]
    simp [alLookup]

theorem alLookup_isSome_iff_hasKey (l : List (α × β)) (k : α) :
    (alLookup l k).isSome = alHasKey l k := by
  induction l with
  | nil => rfl
  | cons p t ih =>
    by_cases hk : p.1 = k
    · simp [alLookup, alHasKey, hk]
    · simp only [alLookup, if_neg hk, alHasKey, List.any_cons,
        decide_eq_true_eq]
      rw [ih]
      simp [alHasKey, hk]

theorem alLookup_alDel_self (l : List (α × β)) (k : α) :
    alLookup (alDel l k) k = none := by
  induction l with
  | nil => rfl
  | cons p t ih =>
    by_cases hk : p.1 = k
    · simpa [alDel, hk] using ih
    · simpa [alDel, alLookup, hk] using ih

theorem alHasKey_alDel_self (l : List (α × β)) (k : α) :
    alHasKey (alDel l k) k = false := by
  rw [← alLookup_isSome_iff_hasKey, alLookup_alDel_self]
  rfl

/-! ### Adjacency state (`helpers.py`)

A `Node` owns an `Outputs` `UserDict` (its `data` field below, the
authoritative store) and a private `_in_edges` set.  `Inputs` is the
read-through view defined in `helpers.Inputs`.  The state of all nodes is
a function from node id to this local adjacency record. -/

structure NodeAdj where
  /-- the `data` dict of the node's `Outputs` `UserDict` -/
  data : List (NodeId × EdgeId)
  /-- the node's `_in_edges` set -/
  in_edges : List NodeId
deriving DecidableEq

def NodeAdj.empty : NodeAdj := ⟨[], []⟩

abbrev Net := NodeId → NodeAdj

def updFn (net : Net) (a : NodeId) (v : NodeAdj) : Net :=
  fun x => if x = a then v else net x

namespace Outputs

/-- `Outputs.__setitem__` of node `source`:
`key._in_edges.add(self.source)` followed by `super().__setitem__`. -/
def setItem (net : Net) (source key : NodeId) (value : EdgeId) : Net :=
  let net₁ := updFn net key
    { net key with in_edges := setAdd (net key).in_edges source }
  updFn net₁ source
    { net₁ source with data := alSet (net₁ source).data key value }

/-- `Outputs.__delitem__` of node `source`:
`key._in_edges.remove(self.source)` (a `KeyError` if absent) followed by
`super().__delitem__(key)` (a `KeyError` if absent). -/
def delItem (net : Net) (source key : NodeId) : Option Net :=
  if source ∈ (net key).in_edges then
    let net₁ := updFn net key
      { net key with in_edges := setRemove (net key).in_edges source }
    if alHasKey (net₁ source).data key then
      some (updFn net₁ source
        { net₁ source with data := alDel (net₁ source).data key })
    else none
  else none

/-- `UserDict.__getitem__` on the node's outputs. -/
def getItem (net : Net) (source key : NodeId) : Option EdgeId :=
  alLookup (net source).data key

/-- `key in node.outputs` (`UserDict` membership checks `self.data`). -/
def containsKey (net : Net) (source key : NodeId) : Bool :=
  alHasKey (net source).data key

end Outputs

namespace Inputs

/-- `Inputs.__getitem__` of node `target`:
`key.outputs.__getitem__(self.target)`. -/
def getItem (net : Net) (target key : NodeId) : Option EdgeId :=
  Outputs.getItem net key target

/-- `Inputs.__setitem__` of node `target`:
`key.outputs.__setitem__(self.target, value)`. -/
def setItem (net : Net) (target key : NodeId) (value : EdgeId) : Net :=
  Outputs.setItem net key target value

/-- `Inputs.__delitem__` of node `target`:
`key.outputs.__delitem__(self.target)`. -/
def delItem (net : Net) (target key : NodeId) : Option Net :=
  Outputs.delItem net key target

/-- `key in node.inputs`: `Inputs` only defines `__getitem__`, so the
`MutableMapping` mixin resolves membership through it (`KeyError` means
absent). -/
def containsKey (net : Net) (target key : NodeId) : Bool :=
  (getItem net target key).isSome

/-- Iterating `node.inputs` yields `self.target._in_edges`. -/
def iterMem (net : Net) (target key : NodeId) : Prop :=
  key ∈ (net target).in_edges

end Inputs

theorem not_mem_setRemove_self (l : List NodeId) (x : NodeId) :
    x ∉ setRemove l x := by
  simp [setRemove, List.mem_filter]

/-- Concrete one-edge network used to witness the adjacency theorems:
the result of `n0.outputs[n1] = 5` starting from fresh nodes. -/
def c1net : Net := Outputs.setItem (fun _ => NodeAdj.empty) 0 1 5

/-- The network after additionally executing `del n0.outputs[n1]` on
`c1net`. -/
def c1wnet : Net :=
  updFn (updFn c1net 1 ⟨[], []⟩) 0 ⟨[], []⟩

/-- C1.  Adjacency symmetry: after `A.outputs[B] = E` the read-through
view gives `B.inputs[A] is E`; writing `B.inputs[A] = E` is the very same
state transformation as `A.outputs[B] = E`; `B in A.inputs` iff
`A in B.outputs`; and deleting from either side (the two deletions being
the same operation) removes the membership from both sides, including
from the upstream set driving iteration of `B.inputs`. -/
theorem adjacency_symmetry (net : Net) (A B : NodeId) (E : EdgeId) :
    Inputs.getItem (Outputs.setItem net A B E) B A = some E
    ∧ Inputs.setItem net B A E = Outputs.setItem net A B E
    ∧ Inputs.containsKey net A B = Outputs.containsKey net B A
    ∧ Inputs.delItem net B A = Outputs.delItem net A B
    ∧ (∀ net', Outputs.delItem net A B = some net' →
        Outputs.containsKey net' A B = false
        ∧ Inputs.containsKey net' B A = false
        ∧ ¬ Inputs.iterMem net' B A) := by
  refine ⟨?_, rfl, ?_, rfl, ?_⟩
  · simp only [Inputs.getItem, Outputs.getItem, Outputs.setItem, updFn,
      if_pos rfl]
    exact alLookup_alSet_self _ _ _
  · simp only [Inputs.containsKey, Inputs.getItem, Outputs.getItem,
      Outputs.containsKey]
    exact alLookup_isSome_iff_hasKey _ _
  · intro net' h
    simp only [Outputs.delItem] at h
    split at h
    case isFalse => exact Option.noConfusion h
    case isTrue h₁ =>
      split at h
      case isFalse => exact Option.noConfusion h
      case isTrue h₂ =>
        rw [Option.some_inj] at h
        subst h
        refine ⟨?_, ?_, ?_⟩
        · simp only [Outputs.containsKey, updFn, if_pos rfl]
          exact alHasKey_alDel_self _ _
        · simp only [Inputs.containsKey, Inputs.getItem, Outputs.getItem,
            updFn, if_pos rfl, ite_true]
          rw [alLookup_alDel_self]
          rfl
        · by_cases hBA : B = A
          · subst hBA
            simp only [Inputs.iterMem, updFn, if_pos rfl]
            exact not_mem_setRemove_self _ _
          · simp only [Inputs.iterMem, updFn, if_neg hBA,
              if_pos rfl]
            exact not_mem_setRemove_self _ _

/-- Witness for C1 at the concrete one-edge network `c1net`
(`n0.outputs[n1] = 5`): reading `n1.inputs[n0]` gives edge `5`, and after
`del n0.outputs[n1]` both memberships are gone. -/
theorem adjacency_symmetry_witness :
    Inputs.getItem (Outputs.setItem c1net 0 1 5) 1 0 = some 5
    ∧ Outputs.containsKey c1wnet 0 1 = false
    ∧ Inputs.containsKey c1wnet 1 0 = false
    ∧ ¬ Inputs.iterMem c1wnet 1 0 := by
  have h := adjacency_symmetry c1net 0 1 5
  have hdel : Outputs.delItem c1net 0 1 = some c1wnet := rfl
  exact ⟨h.1, (h.2.2.2.2 c1wnet hdel).1, (h.2.2.2.2 c1wnet hdel).2.1,
    (h.2.2.2.2 c1wnet hdel).2.2⟩

/-! ### Edge objects (`edge.py`)

An `Edge` is an `Entity` whose label is the pair `(input, output)` of
(possibly unset) node references, plus the `values` payload (`flow` is an
alias of `values`).  Edge objects live in a heap indexed by `EdgeId`;
creating an edge appends to the heap, so the new id is the old length. -/

structure EdgeObj where
  /-- `self.label.input` -/
  input : Option NodeId
  /-- `self.label.output` -/
  output : Option NodeId
  /-- the `values` attribute (aliased as `flow`) -/
  values : Option Val
deriving DecidableEq

/-- The whole object graph: the heap of edge objects plus the adjacency
state of all nodes. -/
structure World where
  edges : List EdgeObj
  net : Net

def emptyWorld : World := ⟨[], fun _ => NodeAdj.empty⟩

def edgeAt (w : World) (eid : EdgeId) : EdgeObj :=
  w.edges.getD eid ⟨none, none, none⟩

inductive EdgeErr where
  /-- the `ValueError` raised when `flow` and `values` are both given -/
  | conflictingArguments
deriving DecidableEq

/-- The keyword arguments of `Edge.__init__`. -/
structure EdgeKwargs where
  input_node : Option NodeId := none
  output_node : Option NodeId := none
  flow : Option Val := none
  values : Option Val := none
deriving DecidableEq

/-- `Edge.__init__`: reject `flow` and `values` together, store
`values if values is not None else flow`, and, only when both endpoints
are given, register via `input_node.outputs[output_node] = self`. -/
def mkEdge (w : World) (kw : EdgeKwargs) : Except EdgeErr (World × EdgeId) :=
  if kw.flow.isSome ∧ kw.values.isSome then
    .error .conflictingArguments
  else
    let eid := w.edges.length
    let e : EdgeObj :=
      ⟨kw.input_node, kw.output_node, kw.values.orElse (fun _ => kw.flow)⟩
    let w₁ : World := { w with edges := w.edges ++ [e] }
    match kw.input_node, kw.output_node with
    | some i, some o =>
        .ok ({ w₁ with net := Outputs.setItem w₁.net i o eid }, eid)
    | _, _ => .ok (w₁, eid)

/-- The dynamic type of the single argument of `Edge.from_object`. -/
inductive EdgeLike where
  /-- an object that already is an `Edge` -/
  | edge (e : EdgeId)
  /-- a `Mapping`, expanded as keyword arguments -/
  | mapping (m : EdgeKwargs)
  /-- any other object (including `None`), used as the `values` payload -/
  | value (v : Option Val)

/-- `Edge.from_object`. -/
def fromObject (w : World) (o : EdgeLike) : Except EdgeErr (World × EdgeId) :=
  match o with
  | .edge e => .ok (w, e)
  | .mapping m => mkEdge w m
  | .value v => mkEdge w { values := v }

/-- The `input` property setter: always rewrite the label, and register
(`i.outputs[self.output] = self`) only on the unset-to-set transition
while the output endpoint is already set. -/
def setInput (w : World) (eid : EdgeId) (i : Option NodeId) : World :=
  let e := edgeAt w eid
  let w₁ : World := { w with edges := w.edges.set eid { e with input := i } }
  match e.input, i, e.output with
  | none, some a, some o =>
      { w₁ with net := Outputs.setItem w₁.net a o eid }
  | _, _, _ => w₁

/-- The `output` property setter: always rewrite the label, and register
(`o.inputs[self.input] = self`) only on the unset-to-set transition while
the input endpoint is already set. -/
def setOutput (w : World) (eid : EdgeId) (o : Option NodeId) : World :=
  let e := edgeAt w eid
  let w₁ : World := { w with edges := w.edges.set eid { e with output := o } }
  match e.output, o, e.input with
  | none, some b, some i =>
      { w₁ with net := Inputs.setItem w₁.net b i eid }
  | _, _, _ => w₁

/-- Assigning the `values` attribute directly. -/
def setValues (w : World) (eid : EdgeId) (v : Option Val) : World :=
  { w with edges := w.edges.set eid { edgeAt w eid with values := v } }

/-- The `flow` property setter: `self.values = values`. -/
def setFlow (w : World) (eid : EdgeId) (v : Option Val) : World :=
  setValues w eid v

/-- The `values` attribute. -/
def valuesOf (w : World) (eid : EdgeId) : Option Val := (edgeAt w eid).values

/-- The `flow` property getter: `return self.values`. -/
def flowOf (w : World) (eid : EdgeId) : Option Val := (edgeAt w eid).values

/-! ### Node construction (`nodes.py`)

`Node.__init__` resets the node's adjacency (`Inputs(self)`,
`Outputs(self)`, `_in_edges = set()`) and then, for every configured
input `i`, adds `i` to `_in_edges`, normalizes the supplied flow through
`Edge.from_object` and runs `edge.input = i; edge.output = self`; for
every configured output `o` it runs `edge.input = self; edge.output = o`.
(The `ValueError` for non-`Node` neighbours is not representable here:
every `NodeId` is a node.) -/

def mkNode (w : World) (nid : NodeId)
    (inputs : List (NodeId × EdgeLike)) (outputs : List (NodeId × EdgeLike)) :
    Except EdgeErr World := do
  let w : World := { w with net := updFn w.net nid NodeAdj.empty }
  let w ← inputs.foldlM (fun (w : World) (p : NodeId × EdgeLike) => do
    let w : World := { w with
      net := updFn w.net nid
        { w.net nid with in_edges := setAdd (w.net nid).in_edges p.1 } }
    let (w, eid) ← fromObject w p.2
    let w := setInput w eid (some p.1)
    pure (setOutput w eid (some nid))) w
  outputs.foldlM (fun (w : World) (p : NodeId × EdgeLike) => do
    let (w, eid) ← fromObject w p.2
    let w := setInput w eid (some nid)
    pure (setOutput w eid (some p.1))) w

theorem getD_set_self : ∀ (l : List EdgeObj) (n : Nat) (e d : EdgeObj),
    n < l.length → (l.set n e).getD n d = e := by
  intro l
  induction l with
  | nil => intro n e d h; simp at h
  | cons a t ih =>
    intro n e d h
    cases n with
    | zero => rfl
    | succ m =>
      simp only [List.set, List.getD, List.getElem?_cons_succ]
      exact ih m e d (by simpa using h)

theorem getD_append_self : ∀ (l : List EdgeObj) (e d : EdgeObj),
    (l ++ [e]).getD l.length d = e := by
  intro l
  induction l with
  | nil => intro e d; rfl
  | cons a t ih => intro e d; exact ih e d

theorem getD_ge_length : ∀ (l : List EdgeObj) (n : Nat) (d : EdgeObj),
    l.length ≤ n → l.getD n d = d := by
  intro l
  induction l with
  | nil => intro n d _; simp [List.getD]
  | cons a t ih =>
    intro n d h
    cases n with
    | zero => simp at h
    | succ m =>
      simp only [List.getD, List.getElem?_cons_succ]
      exact ih m d (by simpa using h)

theorem edgeAt_lt_length_of_output (w : World) (eid : EdgeId) (o : NodeId)
    (h : (edgeAt w eid).output = some o) : eid < w.edges.length := by
  by_contra hge
  rw [edgeAt, getD_ge_length _ _ _ (Nat.le_of_not_lt hge)] at h
  cases h

theorem edgeAt_lt_length_of_input (w : World) (eid : EdgeId) (i : NodeId)
    (h : (edgeAt w eid).input = some i) : eid < w.edges.length := by
  by_contra hge
  rw [edgeAt, getD_ge_length _ _ _ (Nat.le_of_not_lt hge)] at h
  cases h

/-- C3.  Edge endpoint setters register exactly once, on the unset-to-set
transition only: if `E.input` was unset and `E.output` is set, then
`E.input = i` performs `i.outputs[E.output] = E` (and updates the label);
if `E.input` was already set, assigning it again leaves the adjacency
state untouched.  Symmetrically for `E.output = o`, which registers via
`o.inputs[E.input] = E`. -/
theorem edge_setter_registration (w : World) (eid : EdgeId) :
    (∀ i o, (edgeAt w eid).input = none → (edgeAt w eid).output = some o →
      (setInput w eid (some i)).net = Outputs.setItem w.net i o eid
      ∧ (edgeAt (setInput w eid (some i)) eid).input = some i)
    ∧ (∀ a i, (edgeAt w eid).input = some a → (setInput w eid i).net = w.net)
    ∧ (∀ o i, (edgeAt w eid).output = none → (edgeAt w eid).input = some i →
      (setOutput w eid (some o)).net = Inputs.setItem w.net o i eid
      ∧ (edgeAt (setOutput w eid (some o)) eid).output = some o)
    ∧ (∀ b o, (edgeAt w eid).output = some b →
      (setOutput w eid o).net = w.net) := by
  refine ⟨?_, ?_, ?_, ?_⟩
  · intro i o h₁ h₂
    constructor
    · simp [setInput, h₁, h₂]
    · have hlt := edgeAt_lt_length_of_output w eid o h₂
      simp only [setInput, h₁, h₂]
      simp only [edgeAt] at h₁ h₂ ⊢
      rw [getD_set_self _ _ _ _ hlt]
  · intro a i h₁
    simp [setInput, h₁]
  · intro o i h₁ h₂
    constructor
    · simp [setOutput, h₁, h₂]
    · have hlt := edgeAt_lt_length_of_input w eid i h₂
      simp only [setOutput, h₁, h₂]
      simp only [edgeAt] at h₁ h₂ ⊢
      rw [getD_set_self _ _ _ _ hlt]
  · intro b o h₁
    simp [setOutput, h₁]

/-- Two-edge world witnessing C3: edge `0` has an unset input and output
node `1`; edge `1` has both endpoints set already. -/
def c3w : World :=
  ⟨[⟨none, some 1, none⟩, ⟨some 2, some 3, none⟩], fun _ => NodeAdj.empty⟩

/-- Witness for C3: on `c3w`, `edges[0].input = 0` registers the edge as
`0.outputs[1]`, while re-assigning the already-set input of `edges[1]`
leaves the adjacency state unchanged. -/
theorem edge_setter_registration_witness :
    (setInput c3w 0 (some 0)).net = Outputs.setItem c3w.net 0 1 0
    ∧ (edgeAt (setInput c3w 0 (some 0)) 0).input = some 0
    ∧ (setInput c3w 1 (some 4)).net = c3w.net := by
  refine ⟨((edge_setter_registration c3w 0).1 0 1 rfl rfl).1,
    ((edge_setter_registration c3w 0).1 0 1 rfl rfl).2,
    (edge_setter_registration c3w 1).2.1 2 (some 4) rfl⟩

/-- C8.  `Edge.from_object` normalization: an existing `Edge` is passed
through unchanged (same object, same world); a mapping is expanded as
constructor keyword arguments, so the resulting edge has exactly the
fields of the mapping; any other object becomes the `values` payload of a
fresh edge with both endpoints unset. -/
theorem from_object_normalization :
    (∀ w e, fromObject w (.edge e) = .ok (w, e))
    ∧ (∀ w m, fromObject w (.mapping m) = mkEdge w m)
    ∧ (∀ w m w' eid, mkEdge w m = .ok (w', eid) →
        (edgeAt w' eid).input = m.input_node
        ∧ (edgeAt w' eid).output = m.output_node
        ∧ (edgeAt w' eid).values = m.values.orElse (fun _ => m.flow)
        ∧ eid = w.edges.length)
    ∧ (∀ w v w' eid, fromObject w (.value v) = .ok (w', eid) →
        edgeAt w' eid = ⟨none, none, v⟩
        ∧ eid = w.edges.length ∧ w'.net = w.net) := by
  have hmk : ∀ (w : World) (m : EdgeKwargs) (w' : World) (eid : EdgeId),
      mkEdge w m = .ok (w', eid) →
      w'.edges = w.edges ++
        [⟨m.input_node, m.output_node, m.values.orElse (fun _ => m.flow)⟩]
      ∧ eid = w.edges.length := by
    intro w m w' eid h
    rw [mkEdge] at h
    split at h
    · cases h
    · rcases hin : m.input_node with _ | i <;>
        rcases hout : m.output_node with _ | o <;>
        rw [hin, hout] at h <;>
        simp only [Except.ok.injEq, Prod.mk.injEq] at h <;>
        rcases h with ⟨hw, he⟩ <;>
        subst he <;>
        exact ⟨by rw [← hw], rfl⟩
  refine ⟨fun w e => rfl, fun w m => rfl, ?_, ?_⟩
  · intro w m w' eid h
    rcases hmk w m w' eid h with ⟨hedges, heid⟩
    have : edgeAt w' eid =
        ⟨m.input_node, m.output_node, m.values.orElse (fun _ => m.flow)⟩ := by
      rw [edgeAt, hedges, heid]
      exact getD_append_self _ _ _
    exact ⟨by rw [this], by rw [this], by rw [this], heid⟩
  · intro w v w' eid h
    rw [fromObject] at h
    rcases hmk w { values := v } w' eid h with ⟨hedges, heid⟩
    refine ⟨?_, heid, ?_⟩
    · rw [edgeAt, hedges, heid]
      have := getD_append_self w.edges
        ⟨none, none, v.orElse (fun _ => none)⟩ ⟨none, none, none⟩
      rw [this]
      cases v <;> rfl
    · rw [mkEdge] at h
      split at h
      · cases h
      · simp only [Except.ok.injEq, Prod.mk.injEq] at h
        rw [← h.1]

/-- Witness for C8: from the empty world, normalizing the mapping
`{input_node: 1, output_node: 2, flow: 7}` yields edge `0` with exactly
those fields, and normalizing the bare value `9` yields a detached fresh
edge that leaves the adjacency state untouched. -/
theorem from_object_normalization_witness :
    (edgeAt ⟨[⟨some 1, some 2, some 7⟩],
        Outputs.setItem (fun _ => NodeAdj.empty) 1 2 0⟩ 0).input = some 1
    ∧ (edgeAt ⟨[⟨some 1, some 2, some 7⟩],
        Outputs.setItem (fun _ => NodeAdj.empty) 1 2 0⟩ 0).values = some 7
    ∧ edgeAt ⟨[⟨none, none, some 9⟩], fun _ => NodeAdj.empty⟩ 0 =
        ⟨none, none, some 9⟩
    ∧ (⟨[⟨none, none, some 9⟩], fun _ => NodeAdj.empty⟩ : World).net =
        emptyWorld.net := by
  have h₁ := from_object_normalization.2.2.1 emptyWorld
    ⟨some 1, some 2, some 7, none⟩
    ⟨[⟨some 1, some 2, some 7⟩], Outputs.setItem (fun _ => NodeAdj.empty) 1 2 0⟩
    0 rfl
  have h₂ := from_object_normalization.2.2.2 emptyWorld (some 9)
    ⟨[⟨none, none, some 9⟩], fun _ => NodeAdj.empty⟩ 0 rfl
  exact ⟨h₁.1, h₁.2.2.1, h₂.1, h₂.2.2⟩

/-- C9.  `flow` and `values` are one underlying field under two names:
constructing with both non-null raises the `ValueError` (even when the
two values are equal — the first conjunct holds for any `f`, `v`,
including `f = v`), and after assigning through either name the new value
is visible through both names. -/
theorem edge_flow_values_aliasing :
    (∀ (w : World) (kwi kwo : Option NodeId) (f v : Val),
      mkEdge w ⟨kwi, kwo, some f, some v⟩ = .error .conflictingArguments)
    ∧ (∀ (w : World) (eid : EdgeId) (v : Option Val), eid < w.edges.length →
      valuesOf (setFlow w eid v) eid = v
      ∧ flowOf (setFlow w eid v) eid = v
      ∧ valuesOf (setValues w eid v) eid = v
      ∧ flowOf (setValues w eid v) eid = v) := by
  constructor
  · intro w kwi kwo f v
    simp [mkEdge]
  · intro w eid v h
    have key : ((w.edges.set eid
        { edgeAt w eid with values := v }).getD eid
          ⟨none, none, none⟩).values = v := by
      rw [getD_set_self _ _ _ _ h]
    exact ⟨key, key, key, key⟩

/-- Witness for C9: constructing with `flow = 3` and `values = 3` (equal)
still errors, and `edges[0].flow = 4` on a one-edge world is visible as
both `values` and `flow`. -/
theorem edge_flow_values_aliasing_witness :
    mkEdge emptyWorld ⟨none, none, some 3, some 3⟩ =
      .error .conflictingArguments
    ∧ valuesOf
        (setFlow ⟨[⟨none, none, none⟩], fun _ => NodeAdj.empty⟩ 0 (some 4))
        0 = some 4
    ∧ flowOf
        (setFlow ⟨[⟨none, none, none⟩], fun _ => NodeAdj.empty⟩ 0 (some 4))
        0 = some 4 := by
  refine ⟨edge_flow_values_aliasing.1 emptyWorld none none 3 3, ?_, ?_⟩
  · exact (edge_flow_values_aliasing.2
      ⟨[⟨none, none, none⟩], fun _ => NodeAdj.empty⟩ 0 (some 4)
      (by decide)).1
  · exact (edge_flow_values_aliasing.2
      ⟨[⟨none, none, none⟩], fun _ => NodeAdj.empty⟩ 0 (some 4)
      (by decide)).2.1

/-- C10.  Constructing an `Edge` with at most one endpoint set performs
no adjacency registration: a successful `Edge.__init__` with a missing
endpoint, `Edge.from_object` on a plain value, and `Edge.from_object` on
an existing edge all leave the adjacency state (outputs dicts and
upstream sets of every node) unchanged. -/
theorem edge_construction_frame :
    (∀ (w : World) (kw : EdgeKwargs) (r : World × EdgeId),
      (kw.input_node = none ∨ kw.output_node = none) →
      mkEdge w kw = .ok r → r.1.net = w.net)
    ∧ (∀ (w : World) (v : Option Val) (r : World × EdgeId),
      fromObject w (.value v) = .ok r → r.1.net = w.net)
    ∧ (∀ (w : World) (e : EdgeId), fromObject w (.edge e) = .ok (w, e)) := by
  have h1 : ∀ (w : World) (kw : EdgeKwargs) (r : World × EdgeId),
      (kw.input_node = none ∨ kw.output_node = none) →
      mkEdge w kw = .ok r → r.1.net = w.net := by
    intro w kw r hio h
    rw [mkEdge] at h
    split at h
    · cases h
    · rcases hin : kw.input_node with _ | i <;>
        rcases hout : kw.output_node with _ | o
      · rw [hin, hout] at h
        simp only [Except.ok.injEq] at h
        rw [← h]
      · rw [hin, hout] at h
        simp only [Except.ok.injEq] at h
        rw [← h]
      · rw [hin, hout] at h
        simp only [Except.ok.injEq] at h
        rw [← h]
      · rcases hio with h' | h'
        · rw [h'] at hin; cases hin
        · rw [h'] at hout; cases hout
  exact ⟨h1, fun w v r h => h1 w { values := v } r (Or.inl rfl) h,
    fun w e => rfl⟩

/-- Witness for C10: `Edge(output_node=2, values=7)` (only one endpoint)
succeeds and leaves the empty adjacency state unchanged. -/
theorem edge_construction_frame_witness :
    ((⟨[⟨none, some 2, some 7⟩], fun _ => NodeAdj.empty⟩ : World), 0).1.net
      = emptyWorld.net := by
  exact edge_construction_frame.1 emptyWorld
    ⟨none, some 2, none, some 7⟩
    (⟨[⟨none, some 2, some 7⟩], fun _ => NodeAdj.empty⟩, 0)
    (Or.inl rfl) rfl

/-! ### Group keys and group contents

A universe of the Python values the grouping engine handles: hashable
scalars (usable as group keys) and sets of scalars (the only
non-string-iterable container the claims exercise). -/

inductive PyAtom where
  | str : String → PyAtom
  | num : Nat → PyAtom
  | node : NodeId → PyAtom
  /-- identity of a callable object (callables compare by identity) -/
  | func : Nat → PyAtom
  /-- Python `None` -/
  | pynone : PyAtom
deriving DecidableEq

inductive PyObj where
  | atom : PyAtom → PyObj
  | set : List PyAtom → PyObj
deriving DecidableEq

/-- The `groups` dict of a container: group identifier → group content. -/
abbrev GroupMap := List (PyAtom × PyObj)

/-- Modelled from the spec: `groupings.py` is not under `src/` (only its
tests and its caller `energy_system.py` are), so the `Grouping` rule type
is taken from §3/§4.5 of the spec — four facets `key`/`constant_key`,
`value`, `filter`, with `key` and `constant_key` mutually exclusive.  The
function facets observe the current node state through an environment
`NodeId → σ` (Python closures read the live node objects). -/
structure Grouping (σ : Type) where
  constant_key : Option PyAtom := none
  key : Option ((NodeId → σ) → NodeId → PyObj) := none
  value : Option ((NodeId → σ) → NodeId → PyObj) := none
  filter : Option ((NodeId → σ) → PyAtom → Bool) := none

/-- Modelled from the spec: (§4.5.a–b) raw keys are `constant_key`
verbatim as a single key, else `key(node)` — a non-string iterable result
is many keys, anything else one key; keys that are exactly `None` are
dropped. -/
def Grouping.keysOf {σ : Type} (g : Grouping σ) (env : NodeId → σ)
    (n : NodeId) : List PyAtom :=
  let rawKeys : List PyAtom :=
    match g.constant_key with
    | some k => [k]
    | none =>
      match g.key with
      | some kf =>
        match kf env n with
        | .set ks => ks
        | .atom k => [k]
      | none => []
  rawKeys.filter (fun k => k ≠ PyAtom.pynone)

/-- Modelled from the spec: (§4.5.c) the inserted value is `value(node)`
when a value function was supplied, else the node itself. -/
def Grouping.valueOf {σ : Type} (g : Grouping σ) (env : NodeId → σ)
    (n : NodeId) : PyObj :=
  match g.value with
  | some vf => vf env n
  | none => .atom (.node n)

/-- Modelled from the spec: (§4.5.d) a non-string-iterable value is
filtered elementwise and recombined into the same container type; a
scalar value either survives whole or suppresses the insertion. -/
def Grouping.filteredValue {σ : Type} (g : Grouping σ) (env : NodeId → σ)
    (n : NodeId) : Option PyObj :=
  let v := g.valueOf env n
  match g.filter with
  | none => some v
  | some p =>
    match v with
    | .set xs => some (.set (xs.filter (p env)))
    | .atom a => if p env a then some (.atom a) else none

/-- Modelled from the spec: (§4.5.e) merging a new contribution into an
existing group — union for sets, last-write-wins overwrite for scalars. -/
def combineGroup (old contrib : PyObj) : PyObj :=
  match old, contrib with
  | .set xs, .set ys => .set (xs ++ ys.filter (fun y => decide (y ∉ xs)))
  | _, c => c

/-- Modelled from the spec: (§4.5.e) `groups[key]` receives the filtered
value, merged with the existing content when the key already exists. -/
def mergeInto (gs : GroupMap) (k : PyAtom) (v : PyObj) : GroupMap :=
  match alLookup gs k with
  | none => alSet gs k v
  | some old => alSet gs k (combineGroup old v)

/-- Modelled from the spec: (§4.5) one application `g(node, groups)` of a
grouping rule to one node. -/
def Grouping.callOn {σ : Type} (g : Grouping σ) (env : NodeId → σ)
    (n : NodeId) (gs : GroupMap) : GroupMap :=
  match g.filteredValue env n with
  | none => gs
  | some val => (g.keysOf env n).foldl (fun gs k => mergeInto gs k val) gs

/-- Modelled from the spec: the `Entities` rule subtype used throughout
the tests — identical to `Grouping` except that the default `value` wraps
the node into a set (`{e}`), so groups are sets of entities merged by
union; an explicitly supplied value function still takes precedence. -/
def Entities {σ : Type} (g : Grouping σ) : Grouping σ :=
  { g with value := some (fun env n =>
      match g.value with
      | some vf => vf env n
      | none => .set [.node n]) }

/-- Modelled from the spec: the built-in group-by-label rule (`DEFAULT` /
`BY_UID`), a plain `Grouping` keyed by the node's label whose scalar
content is the node itself. -/
def DEFAULT {σ : Type} (label_of : σ → PyAtom) : Grouping σ :=
  { key := some (fun env n => .atom (label_of (env n))) }

/-- A configured grouping rule as accepted by the container constructor:
either a `Grouping` instance (used directly) or a bare function (wrapped
as an `Entities` rule keyed by it, per `energy_system.py`). -/
inductive GroupingSpec (σ : Type) where
  | rule : Grouping σ → GroupingSpec σ
  | func : ((NodeId → σ) → NodeId → PyObj) → GroupingSpec σ

/-! ### The container (`energy_system.py`) -/

structure EnergySystem (σ : Type) where
  /-- `self._first_ungrouped_node_index_` -/
  first_ungrouped_node_index : Nat
  /-- `self._groups` -/
  groups_cache : GroupMap
  /-- `self._groupings` -/
  groupings : List (Grouping σ)
  /-- `self._nodes` -/
  nodes : List NodeId

/-- `EnergySystem.add`: extend the ordered node list (the blinker signal
notified per node has no effect on core state). -/
def EnergySystem.add {σ : Type} (es : EnergySystem σ) (ns : List NodeId) :
    EnergySystem σ :=
  { es with nodes := es.nodes ++ ns }

/-- `EnergySystem.__init__`: cursor 0, empty group cache, the built-in
group-by-label rule prepended to the normalized configured rules, empty
node list, then `add` the initial nodes. -/
def EnergySystem.init {σ : Type} (label_of : σ → PyAtom)
    (gspecs : List (GroupingSpec σ)) (entities : List NodeId) :
    EnergySystem σ :=
  let es : EnergySystem σ :=
    { first_ungrouped_node_index := 0
      groups_cache := []
      groupings := DEFAULT label_of :: gspecs.map (fun s =>
        match s with
        | .rule g => g
        | .func f => Entities { key := some f })
      nodes := [] }
  es.add entities

/-- The `groups` property read: apply every grouping rule to every node
past the cursor, then advance the cursor to the node-list length; returns
the group mapping together with the mutated container. -/
def EnergySystem.groupsRead {σ : Type} (env : NodeId → σ)
    (es : EnergySystem σ) : GroupMap × EnergySystem σ :=
  let gs := es.groupings.foldl
    (fun gs g =>
      (es.nodes.drop es.first_ungrouped_node_index).foldl
        (fun gs n => g.callOn env n gs) gs)
    es.groups_cache
  (gs, { es with
          groups_cache := gs
          first_ungrouped_node_index := es.nodes.length })

/-- `EnergySystem.flows()`: the mapping from `(source, target)` pairs to
the connecting edge, derived by scanning every node's outputs dict. -/
def EnergySystem.flows {σ : Type} (es : EnergySystem σ) (net : Net) :
    List ((NodeId × NodeId) × EdgeId) :=
  es.nodes.flatMap (fun s => ((net s).data).map (fun p => ((s, p.1), p.2)))

theorem foldl_id {γ δ : Type} : ∀ (l : List γ) (b : δ),
    l.foldl (fun b _ => b) b = b := by
  intro l
  induction l with
  | nil => intro b; rfl
  | cons a t ih => intro b; exact ih b

/-- The `Entities` rule of the laziness scenario: group key `"Group"`,
filter reading the node's (mutable) boolean attribute. -/
def lazyG : Grouping Bool :=
  Entities
    { key := some (fun _ _ => .atom (.str "Group"))
      filter := some (fun env a =>
        match a with
        | .node m => env m
        | _ => false) }

/-- A container with the laziness rule and one node (id 7) added. -/
def lazyES : EnergySystem Bool :=
  (EnergySystem.init (fun _ => PyAtom.pynone) [.rule lazyG] []).add [7]

/-- C2.  Grouping laziness and cursor idempotence: `add` classifies
nothing (cache, cursor and rules are untouched, so any mutation between
add and first read is observed); a second read with no intervening
additions returns the identical mapping and container whatever the node
state then is (no rule is re-applied to processed nodes); the cursor is
advanced to the node-list length by a read; and in the concrete scenario
a node added with its attribute unset but read with it set is classified
by its state at first read (in the group), not its state at add time
(filtered out). -/
theorem grouping_laziness_cursor :
    (∀ (σ : Type) (es : EnergySystem σ) (ns : List NodeId),
      (es.add ns).groups_cache = es.groups_cache
      ∧ (es.add ns).first_ungrouped_node_index
          = es.first_ungrouped_node_index
      ∧ (es.add ns).groupings = es.groupings)
    ∧ (∀ (σ : Type) (env env₂ : NodeId → σ) (es : EnergySystem σ),
      EnergySystem.groupsRead env₂ (EnergySystem.groupsRead env es).2
        = ((EnergySystem.groupsRead env es).1,
           (EnergySystem.groupsRead env es).2))
    ∧ (∀ (σ : Type) (env : NodeId → σ) (es : EnergySystem σ),
      ((EnergySystem.groupsRead env es).2).first_ungrouped_node_index
        = es.nodes.length)
    ∧ alLookup (EnergySystem.groupsRead (fun _ => true) lazyES).1
        (.str "Group") = some (.set [.node 7])
    ∧ alLookup (EnergySystem.groupsRead (fun _ => false) lazyES).1
        (.str "Group") = some (.set []) := by
  refine ⟨fun σ es ns => ⟨rfl, rfl, rfl⟩, ?_, ?_, ?_, ?_⟩
  · intro σ env env₂ es
    obtain ⟨f, gc, gr, nd⟩ := es
    simp only [EnergySystem.groupsRead, List.drop_length, List.foldl_nil]
    rw [foldl_id]
  · intro σ env es
    rfl
  · decide
  · decide

/-- The grouping of the elementwise-filter scenario: key `"group"`, value
`{1, 2, 3, 4}`, filter keeping even numbers. -/
def evensG : Grouping Unit :=
  Entities
    { key := some (fun _ _ => .atom (.str "group"))
      value := some (fun _ _ => .set [.num 1, .num 2, .num 3, .num 4])
      filter := some (fun _ a =>
        match a with
        | .num m => m % 2 == 0
        | _ => false) }

def evensES : EnergySystem Unit :=
  (EnergySystem.init (fun _ => PyAtom.pynone) [.rule evensG] []).add [5]

/-- C4.  Elementwise grouping filter: whenever a rule's value function
produces a non-string iterable, the filter is applied to each element
individually and the survivors are recombined into the same container
type; concretely, value `{1,2,3,4}` with filter `x % 2 == 0` puts exactly
`{2,4}` in the group — neither the whole set nor the empty set. -/
theorem grouping_elementwise_filter :
    (∀ (σ : Type) (g : Grouping σ) (env : NodeId → σ) (n : NodeId)
       (vf : (NodeId → σ) → NodeId → PyObj)
       (p : (NodeId → σ) → PyAtom → Bool) (xs : List PyAtom),
      g.value = some vf → g.filter = some p → vf env n = .set xs →
      g.filteredValue env n = some (.set (xs.filter (p env))))
    ∧ alLookup (EnergySystem.groupsRead (fun _ => ()) evensES).1
        (.str "group") = some (.set [.num 2, .num 4])
    ∧ (PyObj.set [.num 2, .num 4]
        ≠ PyObj.set [.num 1, .num 2, .num 3, .num 4])
    ∧ PyObj.set [.num 2, .num 4] ≠ PyObj.set [] := by
  refine ⟨?_, by decide, by decide, by decide⟩
  intro σ g env n vf p xs h₁ h₂ h₃
  simp [Grouping.filteredValue, Grouping.valueOf, h₁, h₂, h₃]

/-- Witness for C4: the elementwise-filter equation evaluated at the
concrete scenario grouping gives exactly `{2, 4}`. -/
theorem grouping_elementwise_filter_witness :
    Grouping.filteredValue evensG (fun _ => ()) 5
      = some (.set [.num 2, .num 4]) := by
  have h := grouping_elementwise_filter.1 Unit evensG (fun _ => ()) 5 _ _
    [.num 1, .num 2, .num 3, .num 4] rfl rfl rfl
  exact h.trans (by decide)

/-- Container of the constant-key scenario: an `Entities` rule whose
`constant_key` is the callable object `func 0` (a function whose call
would return the string `"everything"`), one node (id 3, labelled
`"A Node"`) added. -/
def ckES : EnergySystem Unit :=
  (EnergySystem.init (fun _ => PyAtom.str "A Node")
    [.rule (Entities { constant_key := some (.func 0) })] []).add [3]

/-- C6.  `constant_key` is used verbatim and never invoked: a rule with
`constant_key = k` groups under exactly the key `k` (whatever the other
facets are), and in the scenario the group mapping has no entry under the
string `"everything"` (the callable's return value) while the callable
object itself maps to `{n}`. -/
theorem constant_key_verbatim :
    (∀ (σ : Type) (ck : PyAtom)
       (kf vf : Option ((NodeId → σ) → NodeId → PyObj))
       (pf : Option ((NodeId → σ) → PyAtom → Bool))
       (env : NodeId → σ) (n : NodeId),
      ck ≠ .pynone →
      Grouping.keysOf ⟨some ck, kf, vf, pf⟩ env n = [ck])
    ∧ alLookup (EnergySystem.groupsRead (fun _ => ()) ckES).1
        (.str "everything") = none
    ∧ alLookup (EnergySystem.groupsRead (fun _ => ()) ckES).1 (.func 0)
        = some (.set [.node 3]) := by
  refine ⟨?_, by decide, by decide⟩
  intro σ ck kf vf pf env n h
  simp [Grouping.keysOf, h]

/-- Witness for C6: the verbatim-key equation at the concrete callable
key `func 0`. -/
theorem constant_key_verbatim_witness :
    Grouping.keysOf (⟨some (.func 0), none, none, none⟩ : Grouping Unit)
      (fun _ => ()) 3 = [.func 0] :=
  constant_key_verbatim.1 Unit (.func 0) none none none (fun _ => ()) 3
    (by decide)

theorem alLookup_append_single_ne (l : List (α × β)) (k k' : α) (v : β)
    (h : k ≠ k') : alLookup (l ++ [(k, v)]) k' = alLookup l k' := by
  induction l with
  | nil => simp [alLookup, h]
  | cons p t ih =>
    by_cases hk : p.1 = k'
    · simp [alLookup, hk]
    · simp only [List.cons_append, alLookup, if_neg hk]
      exact ih

theorem alLookup_replace_ne (l : List (α × β)) (k k' : α) (v : β)
    (h : k ≠ k') :
    alLookup (l.map (fun p => if p.1 = k then (k, v) else p)) k'
      = alLookup l k' := by
  induction l with
  | nil => rfl
  | cons p t ih =>
    by_cases hpk : p.1 = k
    · have hrw : (if p.1 = k then (k, v) else p) = (k, v) := if_pos hpk
      have hp' : ¬ p.1 = k' := by rw [hpk]; exact h
      rw [List.map_cons, hrw]
      simp only [alLookup, if_neg h, if_neg hp']
      exact ih
    · have hrw : (if p.1 = k then (k, v) else p) = p := if_neg hpk
      rw [List.map_cons, hrw]
      by_cases hk' : p.1 = k'
      · simp [alLookup, hk']
      · simp only [alLookup, if_neg hk']
        exact ih

theorem alLookup_alSet_ne (l : List (α × β)) (k k' : α) (v : β)
    (h : k ≠ k') : alLookup (alSet l k v) k' = alLookup l k' := by
  by_cases hk : alHasKey l k
  · simp only [alSet, if_pos hk]
    exact alLookup_replace_ne l k k' v h
  · simp only [alSet, if_neg hk]
    exact alLookup_append_single_ne l k k' v h

theorem mergeInto_atom (gs : GroupMap) (k x : PyAtom) :
    mergeInto gs k (.atom x) = alSet gs k (.atom x) := by
  rw [mergeInto]
  cases alLookup gs k with
  | none => rfl
  | some old => cases old <;> rfl

theorem default_callOn {σ : Type} (label_of : σ → PyAtom)
    (env : NodeId → σ) (m : NodeId) (gs : GroupMap)
    (h : label_of (env m) ≠ .pynone) :
    (DEFAULT label_of).callOn env m gs
      = alSet gs (label_of (env m)) (.atom (.node m)) := by
  simp [Grouping.callOn, Grouping.filteredValue, Grouping.valueOf,
    Grouping.keysOf, DEFAULT, h, mergeInto_atom]

theorem default_callOn_pynone {σ : Type} (label_of : σ → PyAtom)
    (env : NodeId → σ) (m : NodeId) (gs : GroupMap)
    (h : label_of (env m) = .pynone) :
    (DEFAULT label_of).callOn env m gs = gs := by
  simp [Grouping.callOn, Grouping.filteredValue, Grouping.valueOf,
    Grouping.keysOf, DEFAULT, h]

theorem default_fold_frame {σ : Type} (label_of : σ → PyAtom)
    (env : NodeId → σ) :
    ∀ (L : List NodeId) (gs : GroupMap) (k : PyAtom),
    (∀ r ∈ L, label_of (env r) ≠ k) →
    alLookup
      (L.foldl (fun gs m => (DEFAULT label_of).callOn env m gs) gs) k
      = alLookup gs k := by
  intro L
  induction L with
  | nil => intro gs k _; rfl
  | cons m rest ih =>
    intro gs k hne
    rw [List.foldl_cons,
      ih _ k (fun r hr => hne r (List.mem_cons_of_mem _ hr))]
    by_cases hpy : label_of (env m) = .pynone
    · rw [default_callOn_pynone label_of env m gs hpy]
    · rw [default_callOn label_of env m gs hpy]
      exact alLookup_alSet_ne _ _ _ _ (hne m (List.mem_cons_self _ _))

theorem default_fold {σ : Type} (label_of : σ → PyAtom)
    (env : NodeId → σ) :
    ∀ (L : List NodeId) (gs : GroupMap),
    (L.map (fun n => label_of (env n))).Nodup →
    (∀ n ∈ L, label_of (env n) ≠ .pynone) →
    ∀ n ∈ L,
    alLookup
      (L.foldl (fun gs m => (DEFAULT label_of).callOn env m gs) gs)
      (label_of (env n)) = some (.atom (.node n)) := by
  intro L
  induction L with
  | nil => intro gs _ _ n hn; cases hn
  | cons m rest ih =>
    intro gs hdup hnn n hn
    rw [List.map_cons, List.nodup_cons] at hdup
    rw [List.foldl_cons,
      default_callOn label_of env m gs (hnn m (List.mem_cons_self _ _))]
    rcases List.mem_cons.mp hn with rfl | hmem
    · have hfr : ∀ r ∈ rest, label_of (env r) ≠ label_of (env n) := by
        intro r hr heq
        exact hdup.1 (List.mem_map.mpr ⟨r, hr, heq⟩)
      rw [default_fold_frame label_of env rest _ _ hfr]
      exact alLookup_alSet_self _ _ _
    · exact ih _ hdup.2
        (fun x hx => hnn x (List.mem_cons_of_mem _ hx)) n hmem

/-- C7.  Constructing a container with an initial node list `L` yields
the node sequence `L` itself, and — because the group-by-label rule is
always prepended — the first read of `groups` maps each node's label to
that node (for nodes whose labels are pairwise distinct and not `None`,
the only situation in which one group per label is possible at all). -/
theorem initial_nodes_label_groups (σ : Type) (label_of : σ → PyAtom)
    (env : NodeId → σ) (L : List NodeId)
    (hdup : (L.map (fun n => label_of (env n))).Nodup)
    (hnn : ∀ n ∈ L, label_of (env n) ≠ .pynone) :
    (EnergySystem.init label_of [] L).nodes = L
    ∧ ∀ n ∈ L,
      alLookup
        (EnergySystem.groupsRead env (EnergySystem.init label_of [] L)).1
        (label_of (env n)) = some (.atom (.node n)) := by
  constructor
  · rfl
  · intro n hn
    have hsh : (EnergySystem.groupsRead env
        (EnergySystem.init label_of [] L)).1
      = L.foldl (fun gs m => (DEFAULT label_of).callOn env m gs) [] := by
      simp [EnergySystem.groupsRead, EnergySystem.init, EnergySystem.add]
    rw [hsh]
    exact default_fold label_of env L [] hdup hnn n hn

/-- Witness for C7 at nodes `[10, 11]` labelled by their own numbers:
the node list is preserved and `groups[label(10)] is node 10`. -/
theorem initial_nodes_label_groups_witness :
    (EnergySystem.init (id : PyAtom → PyAtom) [] [10, 11]).nodes = [10, 11]
    ∧ alLookup
        (EnergySystem.groupsRead (fun n => PyAtom.num n)
          (EnergySystem.init (id : PyAtom → PyAtom) [] [10, 11])).1
        (PyAtom.num 10) = some (.atom (.node 10)) := by
  have h := initial_nodes_label_groups PyAtom id (fun n => PyAtom.num n)
    [10, 11] (by decide) (by decide)
  exact ⟨h.1, h.2 10 (by decide)⟩

def getOk (x : Except EdgeErr World) : World :=
  match x with
  | .ok w => w
  | .error _ => emptyWorld

def isOkW (x : Except EdgeErr World) : Bool :=
  match x with
  | .ok _ => true
  | .error _ => false

/-- after `n0 = Node("node0")` -/
def c5w1 : World := getOk (mkNode emptyWorld 0 [] [])

/-- after `n1 = Node("node1")` -/
def c5w2 : World := getOk (mkNode c5w1 1 [] [])

/-- the detached `Edge()` evaluated before constructing `n2` -/
def c5edge : World × EdgeId :=
  match mkEdge c5w2 {} with
  | .ok r => r
  | .error _ => (emptyWorld, 0)

/-- after `n2 = Node("node2", inputs={n0: Edge()})` -/
def c5w4 : World := getOk (mkNode c5edge.1 2 [(0, .edge c5edge.2)] [])

/-- the container with all three nodes added -/
def c5es : EnergySystem Unit :=
  (EnergySystem.init (fun _ => PyAtom.pynone) [] []).add [0, 1, 2]

/-- the fresh `Edge()` evaluated for `n2.inputs[n1] = Edge()` -/
def c5edge2 : World × EdgeId :=
  match mkEdge c5w4 {} with
  | .ok r => r
  | .error _ => (emptyWorld, 0)

/-- after `n2.inputs[n1] = Edge()` -/
def c5w5 : World :=
  { c5edge2.1 with net := Inputs.setItem c5edge2.1.net 2 1 c5edge2.2 }

/-- C5.  Container flows index tracks adjacency: with `n2` built from
`inputs={n0: Edge()}` and nodes `n0`,`n1`,`n2` added to the container,
`flows()` maps `(n0, n2)` to the connecting edge and has no entry
`(n1, n2)`; after `n2.inputs[n1] = Edge()` a fresh `flows()` call maps
`(n1, n2)` to the new edge.  (The first three conjuncts record that each
construction step succeeded.) -/
theorem container_flows_track_adjacency :
    isOkW (mkNode emptyWorld 0 [] []) = true
    ∧ isOkW (mkNode c5w1 1 [] []) = true
    ∧ isOkW (mkNode c5edge.1 2 [(0, .edge c5edge.2)] []) = true
    ∧ alLookup (c5es.flows c5w4.net) (0, 2) = some c5edge.2
    ∧ alLookup (c5es.flows c5w4.net) (1, 2) = none
    ∧ alLookup (c5es.flows c5w5.net) (1, 2) = some c5edge2.2 := by
  decide

end Oemof
